import Mathlib

/-!
Shallow embedding of the alerting-policy price estimator (doitintl/gcp-tool-appe).

The Go sources embedded here are `cmd/monitoring.go` (project/folder listing,
alert-policy evaluation and pricing) and the root command file (pipeline
orchestration, named-policy fetching).  Strings are modelled as `List Char`
where Go performs byte slicing (the identifiers involved are ASCII), machine
floats (`float64` prices) are modelled by exact rationals `ℚ` — the pricing
claims are about which formula the code applies, not about IEEE rounding —
and fallible provider calls are oracles attached to the input data:
a streamed iterator is a `StreamResult` (rows yielded, then `Done` or an
error), a decoded PromQL response is an `Except String Nat`.
-/

/-- Index of the first slash in a character list; `none` models Go
`strings.Index` returning `-1`. -/
def strIndexSlash : List Char → Option Nat
  | [] => none
  | c :: rest => if c = '/' then some 0 else (strIndexSlash rest).map (· + 1)

/-- Embeds `getProjectId` (monitoring.go lines 76-80):
`s1 := name[strings.Index(name, "/")+1:]` then `return s1[:strings.Index(s1, "/")]`.
Go slicing `s1[:-1]` (when `s1` holds no slash) panics with an index-out-of-range
error; that panic is modelled as `none`. -/
def getProjectId (name : List Char) : Option (List Char) :=
  let s1 := match strIndexSlash name with
    | none => name
    | some i => name.drop (i + 1)
  match strIndexSlash s1 with
  | none => none
  | some j => some (s1.take j)

/-- Cross-series reducer of an optional aggregation, as the string produced by
the proto enum's `String()`; a nil aggregation yields the zero value
`REDUCE_NONE` (Go proto getters on nil receivers return the zero value). -/
structure Aggregation where
  crossSeriesReducer : String
deriving Repr, DecidableEq

def getReducerStr : Option Aggregation → String
  | none => "REDUCE_NONE"
  | some a => a.crossSeriesReducer

inductive View where
  | headers
  | full
deriving Repr, DecidableEq

/-- The fields of the `ListTimeSeriesRequest` that monitoring.go lines 195-221
populate (the interval and name fields are irrelevant to the claims). -/
structure ListTimeSeriesRequest where
  filter : String
  view : View
  aggregation : Option Aggregation
  secondaryAggregation : Option Aggregation
deriving Repr, DecidableEq

/-- Threshold or absence condition payload: filter string plus aggregation list. -/
structure TACond where
  filter : String
  aggregations : List Aggregation
deriving Repr, DecidableEq

/-- Embeds monitoring.go lines 196-221: the request starts with the headers
view; the filter and aggregation list are taken from the threshold condition
and then overwritten by the absence condition when present; `aggregations[0]`
and `aggregations[1]` become the primary and secondary aggregation when the
list is long enough; the view escalates to FULL when the primary aggregation
is nil or either aggregation's cross-series reducer prints as
`REDUCE_COUNT_FALSE`. -/
def buildTsRequest (threshold absent : Option TACond) : ListTimeSeriesRequest :=
  let base : String × List Aggregation :=
    match threshold with
    | some t => (t.filter, t.aggregations)
    | none => ("", [])
  let fa : String × List Aggregation :=
    match absent with
    | some a => (a.filter, a.aggregations)
    | none => base
  let agg := fa.2[0]?
  let secAgg := fa.2[1]?
  let view :=
    if agg = none ∨ getReducerStr agg = "REDUCE_COUNT_FALSE"
        ∨ getReducerStr secAgg = "REDUCE_COUNT_FALSE"
    then View.full else View.headers
  ⟨fa.1, view, agg, secAgg⟩

/-- The effective aggregation list of a threshold/absence condition: the
absence condition's list when present, otherwise the threshold's. -/
def effectiveAggs (threshold absent : Option TACond) : List Aggregation :=
  match absent with
  | some a => a.aggregations
  | none =>
    match threshold with
    | some t => t.aggregations
    | none => []

/-- Outcome of a streamed iterator: `rows` successful `Next()` calls, then
either `iterator.Done` (`err = none`) or an error carrying message `err`. -/
structure StreamResult where
  rows : Nat
  err : Option String
deriving Repr, DecidableEq

structure MqlCond where
  query : String
  result : StreamResult

/-- PromQL condition: evaluation-interval seconds and the decoded range-query
response — either an error message (from `Do`, `MarshalJSON` or
`json.Unmarshal`, all three handled identically by the code: record the
message and `continue`) or the length of `data.result`. -/
structure PqlCond where
  query : String
  seconds : Int
  resp : Except String Nat

/-- One alert-policy condition as monitoring.go sees it: the four variant
getters (each `none` when the variant is absent) plus the oracle for the
single `ListTimeSeries` call the threshold/absence branch issues. -/
structure Condition where
  mql : Option MqlCond
  pql : Option PqlCond
  threshold : Option TACond
  absent : Option TACond
  tsResult : StreamResult

/-- Embeds the Go `policy` output struct (monitoring.go lines 22-30). -/
@[ext]
structure PolicyResult where
  TimeSeries : Nat
  Conditions : Nat
  ProjectId : List Char
  Name : List Char
  DisplayName : String
  Error : String
  Price : ℚ
deriving Repr, DecidableEq

/-- One pass of the row-consuming loops (monitoring.go lines 152-164 and
223-235): each successfully yielded row adds 0.03024 to the price and 1 to
the time-series counter. -/
def consumeRows (r : PolicyResult) : Nat → PolicyResult
  | 0 => r
  | n + 1 =>
    consumeRows { r with Price := r.Price + 0.03024, TimeSeries := r.TimeSeries + 1 } n

/-- Consume a streamed iterator: count every yielded row, and if the stream
ended with an error rather than `Done`, record its message in the error field
(overwriting any earlier message) and stop. -/
def applyStream (r : PolicyResult) (s : StreamResult) : PolicyResult :=
  let r1 := consumeRows r s.rows
  match s.err with
  | none => r1
  | some e => { r1 with Error := e }

/-- The threshold/absence branch (monitoring.go lines 195-235): when either
variant is present, build the `ListTimeSeries` request and consume the
returned stream at 0.03024 per row. -/
def thresholdBranch (r : PolicyResult) (c : Condition) : PolicyResult :=
  if c.threshold.isSome || c.absent.isSome then
    let _req := buildTsRequest c.threshold c.absent
    applyStream r c.tsResult
  else r

/-- One iteration of the condition loop (monitoring.go lines 142-236).
The MQL branch consumes its stream and falls through; a PromQL error
`continue`s (skipping the threshold/absence branch of the same condition);
a successful PromQL response adds `0.9072 / seconds * N` and `N`. -/
def processCondition (r : PolicyResult) (c : Condition) : PolicyResult :=
  let r1 := match c.mql with
    | none => r
    | some m => applyStream r m.result
  match c.pql with
  | none => thresholdBranch r1 c
  | some p =>
    match p.resp with
    | Except.error e => { r1 with Error := e }
    | Except.ok n =>
      thresholdBranch
        { r1 with
          Price := r1.Price + 0.9072 / (p.seconds : ℚ) * (n : ℚ)
          TimeSeries := r1.TimeSeries + n } c

/-- The alert policy as consumed by `processAlertPolicy`. -/
structure AlertPolicy where
  name : List Char
  displayName : String
  conditions : List Condition

/-- Embeds `processAlertPolicy` (monitoring.go lines 123-239): read the
project id from the policy name (a malformed name panics, modelled `none`),
initialize the result with price `1.5 * #conditions`, run the condition loop,
emit the result. -/
def processAlertPolicy (p : AlertPolicy) : Option PolicyResult :=
  match getProjectId p.name with
  | none => none
  | some pid =>
    some (p.conditions.foldl processCondition
      { TimeSeries := 0
        Conditions := p.conditions.length
        ProjectId := pid
        Name := p.name
        DisplayName := p.displayName
        Error := ""
        Price := 1.5 * (p.conditions.length : ℚ) })

/-- Embeds monitoring.go line 41: the bare identifier of a parent resource,
`parent[strings.Index(parent, "/")+1:]` (the whole string when no slash). -/
def afterFirstSlash (s : String) : String :=
  match strIndexSlash s.data with
  | none => s
  | some i => ⟨s.data.drop (i + 1)⟩

/-- The provider's view of one parent resource in the hierarchy:
the projects its project listing yields (with `some k` meaning the iterator
returned an error after yielding `k` of them), and likewise the child
folders its folder listing yields. -/
inductive FTree : Type where
  | node : List String → Option Nat → List (String × FTree) → Option Nat → FTree

/-- Items actually yielded by an iterator that errors after `k` items. -/
def truncTake {α : Type} (e : Option Nat) (l : List α) : List α :=
  match e with
  | none => l
  | some k => l.take k

def folderFuel (e : Option Nat) (len : Nat) : Nat :=
  match e with
  | none => len
  | some k => k

mutual
/-- Embeds `listProjects` (monitoring.go lines 40-74): skip an excluded
parent entirely; emit the projects the listing yields (a listing error breaks
that loop only); when recursive, walk the yielded child folders, recursing
into each. -/
def listProjects (recursive : Bool) (excl : List String) (parent : String) (t : FTree) :
    List String :=
  match t with
  | FTree.node projs perr folders ferr =>
    if excl.contains (afterFirstSlash parent) then []
    else
      truncTake perr projs ++
        (if recursive then walkFolders recursive excl (folderFuel ferr folders.length) folders
         else [])
termination_by sizeOf t

/-- The folder loop of `listProjects` (monitoring.go lines 62-72): `fuel` is
the number of `Next()` calls that succeed before the iterator errors (or the
list length when it ends with `Done`); an error breaks the loop. -/
def walkFolders (recursive : Bool) (excl : List String) (fuel : Nat)
    (l : List (String × FTree)) : List String :=
  match fuel, l with
  | _, [] => []
  | 0, _ :: _ => []
  | Nat.succ n, (name, sub) :: rest =>
    listProjects recursive excl name sub ++ walkFolders recursive excl n rest
termination_by sizeOf l
end

/-- Embeds the `--policy` startup goroutine (root command file lines 190-206):
each named policy is fetched with `GetAlertPolicy`; on a provider error the
code calls `log.Fatal`, which terminates the whole process — modelled as the
whole computation returning that error, dropping every later policy. -/
def fetchNamedPolicies : List (Except String AlertPolicy) → Except String (List AlertPolicy)
  | [] => Except.ok []
  | Except.error e :: _ => Except.error e
  | Except.ok p :: rest => (fetchNamedPolicies rest).map (fun l => p :: l)

/-- The evaluation stage (stage 3 worker pools) projected to its sequential
semantics: each policy taken from `policiesIn` is processed independently by
`processAlertPolicy`. -/
def evalStage (ps : List AlertPolicy) : List (Option PolicyResult) :=
  ps.map processAlertPolicy

/-- The three permissions monitoring.go line 84 requires, in declared order. -/
def requiredPermissions : List String :=
  ["monitoring.timeSeries.list", "monitoring.alertPolicies.get", "monitoring.alertPolicies.list"]

/-- Embeds `verifyProjectPermissions` (monitoring.go lines 82-101): with the
gate disabled the project is forwarded unconditionally; otherwise one
`TestIamPermissions` call is made (its outcome is the `resp` oracle: an error
message or the granted-permission list) and the project is dropped (`none`)
on a call error or on any missing required permission, else forwarded. -/
def verifyProjectPermissions (projectId : String) (testPermissions : Bool)
    (resp : Except String (List String)) : Option String :=
  if testPermissions then
    match resp with
    | Except.error _ => none
    | Except.ok granted =>
      if requiredPermissions.all (fun p => granted.contains p) then some projectId
      else none
  else some projectId

/-- One row the alert-policy iterator yields: the policy plus its tri-state
enabled flag (`none` models a nil wrapper). -/
structure PolicyEntry where
  policy : AlertPolicy
  enabled : Option Bool

/-- Embeds `listAlertPolicies` (monitoring.go lines 103-121): the iterator
yields `entries`; an error after `k` rows (`errAt = some k`) breaks the loop,
truncating this project's enumeration only; each yielded policy is admitted
when its enabled flag is present-and-true or `includeDisabled` is set. -/
def listAlertPolicies (includeDisabled : Bool) (entries : List PolicyEntry)
    (errAt : Option Nat) : List AlertPolicy :=
  (truncTake errAt entries).filterMap
    (fun e => if e.enabled.getD false || includeDisabled then some e.policy else none)

/-- The permission-check stage (stage 1 worker pools) projected to its
sequential semantics: each project from `projectsIn` is checked independently
by `verifyProjectPermissions` and forwarded or dropped. -/
def permissionStage (testPermissions : Bool)
    (items : List (String × Except String (List String))) : List String :=
  items.filterMap (fun pr => verifyProjectPermissions pr.1 testPermissions pr.2)

/-- The policy-enumeration stage (stage 2 worker pools) projected to its
sequential semantics: each admitted project's policies are enumerated
independently by `listAlertPolicies`. -/
def enumerationStage (includeDisabled : Bool)
    (items : List (List PolicyEntry × Option Nat)) : List (List AlertPolicy) :=
  items.map (fun pe => listAlertPolicies includeDisabled pe.1 pe.2)

/-- Price contribution of one condition: the observable delta that one pass of
the condition loop adds to the price field. -/
def condPriceDelta (c : Condition) : ℚ :=
  let mqlD : ℚ := match c.mql with
    | none => 0
    | some m => 0.03024 * (m.result.rows : ℚ)
  let thrD : ℚ :=
    if c.threshold.isSome || c.absent.isSome then 0.03024 * (c.tsResult.rows : ℚ) else 0
  match c.pql with
  | none => mqlD + thrD
  | some p =>
    match p.resp with
    | Except.error _ => mqlD
    | Except.ok n => mqlD + 0.9072 / (p.seconds : ℚ) * (n : ℚ) + thrD

/-- Time-series count contribution of one condition. -/
def condTsDelta (c : Condition) : Nat :=
  let mqlD : Nat := match c.mql with
    | none => 0
    | some m => m.result.rows
  let thrD : Nat := if c.threshold.isSome || c.absent.isSome then c.tsResult.rows else 0
  match c.pql with
  | none => mqlD + thrD
  | some p =>
    match p.resp with
    | Except.error _ => mqlD
    | Except.ok n => mqlD + n + thrD

/-- The last error message one pass of the condition loop writes into the
error field, if any: the threshold/absence stream error when that branch runs
and errors, else the PromQL error, else the MQL stream error. -/
def condError (c : Condition) : Option String :=
  let mqlE := match c.mql with
    | none => none
    | some m => m.result.err
  let thrE := if c.threshold.isSome || c.absent.isSome then c.tsResult.err else none
  let thrOrMql := match thrE with
    | some e => some e
    | none => mqlE
  match c.pql with
  | none => thrOrMql
  | some p =>
    match p.resp with
    | Except.error e => some e
    | Except.ok _ => thrOrMql

/-- Error field after folding the condition loop from a given starting
message: the last recorded error message wins. -/
def lastErrorFrom (d : String) : List Condition → String
  | [] => d
  | c :: cs =>
    lastErrorFrom (match condError c with | none => d | some e => e) cs

theorem consumeRows_eq (r : PolicyResult) (n : Nat) :
    consumeRows r n =
      { r with Price := r.Price + 0.03024 * (n : ℚ), TimeSeries := r.TimeSeries + n } := by
  induction n generalizing r with
  | zero => simp [consumeRows]
  | succ n ih =>
    rw [consumeRows, ih]
    refine PolicyResult.ext ?_ rfl rfl rfl rfl rfl ?_
    · simp
      omega
    · simp
      ring

theorem applyStream_eq (r : PolicyResult) (s : StreamResult) :
    applyStream r s =
      { r with
        Price := r.Price + 0.03024 * (s.rows : ℚ)
        TimeSeries := r.TimeSeries + s.rows
        Error := match s.err with | none => r.Error | some e => e } := by
  unfold applyStream
  cases h : s.err <;> simp [consumeRows_eq, h]

/-- The loop body decomposes into independent field deltas. -/
theorem processCondition_eq (r : PolicyResult) (c : Condition) :
    processCondition r c =
      { r with
        Price := r.Price + condPriceDelta c
        TimeSeries := r.TimeSeries + condTsDelta c
        Error := match condError c with | none => r.Error | some e => e } := by
  obtain ⟨mq, pq, thr, ab, tsrows, tserr⟩ := c
  rcases mq with _ | ⟨mqq, mrows, merr⟩ <;>
    rcases pq with _ | ⟨pqq, secs, e | n⟩ <;>
    cases thr <;> cases ab <;>
    (try cases merr) <;> (try cases tserr) <;>
    simp only [processCondition, thresholdBranch, condPriceDelta, condTsDelta, condError,
      applyStream_eq, Option.isSome_some, Option.isSome_none, Bool.or_self, Bool.false_or,
      Bool.true_or, Bool.or_true, Bool.or_false, if_true, if_false] <;>
    first
      | rfl
      | (ext <;> simp <;> first | omega | ring)

/-- The whole condition loop decomposes: the price is the initial price plus
the sum of all per-condition deltas, the counter likewise, the error field is
the last recorded message, and no other field changes. -/
theorem foldl_processCondition (cs : List Condition) (init : PolicyResult) :
    cs.foldl processCondition init =
      { init with
        Price := init.Price + (cs.map condPriceDelta).sum
        TimeSeries := init.TimeSeries + (cs.map condTsDelta).sum
        Error := lastErrorFrom init.Error cs } := by
  induction cs generalizing init with
  | nil => simp [lastErrorFrom]
  | cons c cs ih =>
    rw [List.foldl_cons, processCondition_eq, ih]
    refine PolicyResult.ext ?_ rfl rfl rfl rfl rfl ?_
    · simp
      omega
    · simp
      ring

theorem lastErrorFrom_eq (d : String) (cs : List Condition) :
    lastErrorFrom d cs = ((cs.filterMap condError).getLast?).getD d := by
  induction cs generalizing d with
  | nil => simp [lastErrorFrom]
  | cons c cs ih =>
    rw [lastErrorFrom, ih]
    cases h : condError c with
    | none => simp [List.filterMap_cons, h]
    | some e =>
      simp only [List.filterMap_cons, h]
      cases hl : cs.filterMap condError with
      | nil => simp [hl]
      | cons x xs =>
        have h2 : (x :: xs).getLast? = some ((x :: xs).getLast (by simp)) :=
          List.getLast?_eq_getLast _ _
        simp [hl, List.getLast?_cons_cons, h2]

theorem strIndexSlash_eq_none (l : List Char) : strIndexSlash l = none ↔ '/' ∉ l := by
  induction l with
  | nil => simp [strIndexSlash]
  | cons c rest ih =>
    by_cases hc : c = '/'
    · simp [strIndexSlash, hc]
    · simp [strIndexSlash, hc, ih, Ne.symm hc]

theorem strIndexSlash_append (a b : List Char) (ha : '/' ∉ a) :
    strIndexSlash (a ++ '/' :: b) = some a.length := by
  induction a with
  | nil => simp [strIndexSlash]
  | cons c rest ih =>
    have hc : ¬c = '/' := fun h => ha (by simp [h])
    have hrest : '/' ∉ rest := fun h => ha (by simp [h])
    simp [strIndexSlash, hc, ih hrest]

theorem strIndexSlash_inv (l : List Char) (i : Nat) (h : strIndexSlash l = some i) :
    ∃ x y, l = x ++ '/' :: y ∧ x.length = i ∧ '/' ∉ x := by
  induction l generalizing i with
  | nil => simp [strIndexSlash] at h
  | cons c rest ih =>
    by_cases hc : c = '/'
    · subst hc
      simp [strIndexSlash] at h
      exact ⟨[], rest, by simp, by simp [h], by simp⟩
    · simp [strIndexSlash, hc] at h
      obtain ⟨j, hj, hij⟩ := h
      obtain ⟨x, y, hxy, hlen, hx⟩ := ih j hj
      exact ⟨c :: x, y, by simp [hxy], by simp [hlen, hij], by
        simp [hx, Ne.symm hc]⟩

theorem getProjectId_eq_some (a b c : List Char) (ha : '/' ∉ a) (hb : '/' ∉ b) :
    getProjectId (a ++ '/' :: (b ++ '/' :: c)) = some b := by
  have h1 : strIndexSlash (a ++ '/' :: (b ++ '/' :: c)) = some a.length :=
    strIndexSlash_append a _ ha
  have hdrop : (a ++ '/' :: (b ++ '/' :: c)).drop (a.length + 1) = b ++ '/' :: c := by
    have h0 : a ++ '/' :: (b ++ '/' :: c) = (a ++ ['/']) ++ (b ++ '/' :: c) := by simp
    rw [h0]
    exact List.drop_left' (by simp)
  simp only [getProjectId, h1, hdrop, strIndexSlash_append b c hb, List.take_left]

theorem getProjectId_eq_none (name : List Char) (h : name.count '/' < 2) :
    getProjectId name = none := by
  cases hs : strIndexSlash name with
  | none => simp [getProjectId, hs]
  | some i =>
    obtain ⟨x, y, hxy, hlen, hx⟩ := strIndexSlash_inv name i hs
    have hy : '/' ∉ y := by
      intro hmem
      have hcx : x.count '/' = 0 := List.count_eq_zero.mpr hx
      have hcy : 0 < y.count '/' := List.count_pos_iff.mpr hmem
      rw [hxy] at h
      simp [List.count_append, List.count_cons, hcx] at h
      omega
    have hdrop : name.drop (i + 1) = y := by
      rw [hxy]
      have h0 : x ++ '/' :: y = (x ++ ['/']) ++ y := by simp
      rw [h0]
      exact List.drop_left' (by simp [hlen])
    simp only [getProjectId, hs, hdrop, (strIndexSlash_eq_none y).mpr hy]

theorem walkFolders_append (recursive : Bool) (excl : List String)
    (l1 l2 : List (String × FTree)) :
    walkFolders recursive excl (l1.length + l2.length) (l1 ++ l2) =
      walkFolders recursive excl l1.length l1 ++ walkFolders recursive excl l2.length l2 := by
  induction l1 with
  | nil => simp [walkFolders]
  | cons x l1 ih =>
    obtain ⟨name, sub⟩ := x
    have hfuel : ((name, sub) :: l1).length + l2.length = (l1.length + l2.length) + 1 := by
      simp
      omega
    rw [hfuel, List.cons_append]
    simp only [walkFolders, List.length_cons]
    rw [ih, List.append_assoc]

theorem buildTsRequest_view (threshold absent : Option TACond) :
    (buildTsRequest threshold absent).view =
      (if (effectiveAggs threshold absent)[0]? = none
          ∨ getReducerStr (effectiveAggs threshold absent)[0]? = "REDUCE_COUNT_FALSE"
          ∨ getReducerStr (effectiveAggs threshold absent)[1]? = "REDUCE_COUNT_FALSE"
        then View.full else View.headers) := by
  rcases absent with _ | a <;> rcases threshold with _ | t <;> rfl

theorem viewFull_iff (aggs : List Aggregation) :
    ((if aggs[0]? = none ∨ getReducerStr aggs[0]? = "REDUCE_COUNT_FALSE"
          ∨ getReducerStr aggs[1]? = "REDUCE_COUNT_FALSE"
        then View.full else View.headers) = View.full) ↔
      (aggs = [] ∨
        (∃ a, aggs[0]? = some a ∧ a.crossSeriesReducer = "REDUCE_COUNT_FALSE") ∨
        (∃ a, aggs[1]? = some a ∧ a.crossSeriesReducer = "REDUCE_COUNT_FALSE")) := by
  match aggs with
  | [] => simp [getReducerStr]
  | [a] =>
    by_cases h : a.crossSeriesReducer = "REDUCE_COUNT_FALSE" <;>
      simp [getReducerStr, h]
  | a :: b :: rest =>
    by_cases h1 : a.crossSeriesReducer = "REDUCE_COUNT_FALSE" <;>
      by_cases h2 : b.crossSeriesReducer = "REDUCE_COUNT_FALSE" <;>
      simp [getReducerStr, h1, h2]

/-- C1: For every Threshold or Absence condition, the ListTimeSeries request
built by processAlertPolicy uses the headers-only view, except that it uses
the full view exactly when the condition's aggregation list is empty (no
aggregation) or the primary or secondary aggregation's cross-series reducer
is the count-false reducer; in particular a Threshold condition with an empty
aggregation list always yields a full-view request. -/
theorem C1_view_selection (threshold absent : Option TACond)
    (hcond : threshold.isSome ∨ absent.isSome) :
    ((buildTsRequest threshold absent).view = View.full ↔
      effectiveAggs threshold absent = [] ∨
      (∃ a, (effectiveAggs threshold absent)[0]? = some a ∧
        a.crossSeriesReducer = "REDUCE_COUNT_FALSE") ∨
      (∃ a, (effectiveAggs threshold absent)[1]? = some a ∧
        a.crossSeriesReducer = "REDUCE_COUNT_FALSE")) ∧
    ((buildTsRequest threshold absent).view = View.headers ↔
      ¬(effectiveAggs threshold absent = [] ∨
        (∃ a, (effectiveAggs threshold absent)[0]? = some a ∧
          a.crossSeriesReducer = "REDUCE_COUNT_FALSE") ∨
        (∃ a, (effectiveAggs threshold absent)[1]? = some a ∧
          a.crossSeriesReducer = "REDUCE_COUNT_FALSE"))) ∧
    (∀ f : String, (buildTsRequest (some ⟨f, []⟩) none).view = View.full) := by
  have hiff : (buildTsRequest threshold absent).view = View.full ↔
      (effectiveAggs threshold absent = [] ∨
        (∃ a, (effectiveAggs threshold absent)[0]? = some a ∧
          a.crossSeriesReducer = "REDUCE_COUNT_FALSE") ∨
        (∃ a, (effectiveAggs threshold absent)[1]? = some a ∧
          a.crossSeriesReducer = "REDUCE_COUNT_FALSE")) := by
    rw [buildTsRequest_view]
    exact viewFull_iff (effectiveAggs threshold absent)
  refine ⟨hiff, ?_, fun f => rfl⟩
  constructor
  · intro hh hp
    rw [hiff.mpr hp] at hh
    exact View.noConfusion hh
  · intro hn
    cases hv : (buildTsRequest threshold absent).view with
    | headers => rfl
    | full => exact absurd (hiff.mp hv) hn

theorem C1_view_selection_witness :
    (buildTsRequest (some ⟨"resource.type = one", []⟩) none).view = View.full :=
  (C1_view_selection (some ⟨"resource.type = one", []⟩) none (Or.inl rfl)).2.2
    "resource.type = one"

/-- C3: For every PromQL condition with evaluation interval of `step` seconds
whose range-query response decodes to a result list of length `n`,
processAlertPolicy adds exactly `0.9072 / step * n` to the policy's price and
exactly `n` to its time-series counter. -/
theorem C3_promql_pricing (r : PolicyResult) (q : String) (step : Int) (n : Nat)
    (hstep : 0 < step) :
    processCondition r
        { mql := none, pql := some ⟨q, step, Except.ok n⟩, threshold := none,
          absent := none, tsResult := ⟨0, none⟩ } =
      { r with
        Price := r.Price + 0.9072 / (step : ℚ) * (n : ℚ)
        TimeSeries := r.TimeSeries + n } := by
  rw [processCondition_eq]
  refine PolicyResult.ext ?_ rfl rfl rfl rfl ?_ ?_ <;>
    simp [condPriceDelta, condTsDelta, condError]

theorem C3_promql_pricing_witness :
    0 < (60 : Int) ∧
    processCondition ⟨0, 1, [], [], "d", "", 0⟩
        { mql := none, pql := some ⟨"up", 60, Except.ok 5⟩, threshold := none,
          absent := none, tsResult := ⟨0, none⟩ } =
      { TimeSeries := 5, Conditions := 1, ProjectId := [], Name := [],
        DisplayName := "d", Error := "", Price := 0.0756 } := by
  refine ⟨by decide, ?_⟩
  rw [C3_promql_pricing ⟨0, 1, [], [], "d", "", 0⟩ "up" 60 5 (by decide)]
  refine PolicyResult.ext rfl rfl rfl rfl rfl rfl ?_
  norm_num

/-- C4: For every MQL condition, and identically for every Threshold or
Absence condition, each time-series row returned by the query adds exactly
0.03024 to the policy's price and exactly 1 to its time-series counter, so a
query returning exactly `n` rows adds `n * 0.03024` and `n`. -/
theorem C4_per_series_pricing (r : PolicyResult) (n : Nat) (q f : String)
    (aggs : List Aggregation) :
    (processCondition r
        { mql := some ⟨q, n, none⟩, pql := none, threshold := none,
          absent := none, tsResult := ⟨0, none⟩ } =
      { r with Price := r.Price + (n : ℚ) * 0.03024, TimeSeries := r.TimeSeries + n }) ∧
    (processCondition r
        { mql := none, pql := none, threshold := some ⟨f, aggs⟩,
          absent := none, tsResult := ⟨n, none⟩ } =
      { r with Price := r.Price + (n : ℚ) * 0.03024, TimeSeries := r.TimeSeries + n }) ∧
    (processCondition r
        { mql := none, pql := none, threshold := none,
          absent := some ⟨f, aggs⟩, tsResult := ⟨n, none⟩ } =
      { r with Price := r.Price + (n : ℚ) * 0.03024, TimeSeries := r.TimeSeries + n }) := by
  refine ⟨?_, ?_, ?_⟩ <;>
    (rw [processCondition_eq]
     refine PolicyResult.ext ?_ rfl rfl rfl rfl ?_ ?_ <;>
       (simp [condPriceDelta, condTsDelta, condError]
        try ring))

/-- C5: For every policy, processAlertPolicy initializes the result's price to
1.5 times the number of conditions and the time-series count to 0 before
evaluating any condition; consequently a policy with zero conditions yields
price exactly 0 and time-series count 0. -/
theorem C5_base_price (p : AlertPolicy) (pid : List Char)
    (hname : getProjectId p.name = some pid) :
    ∃ r, processAlertPolicy p = some r ∧
      r.Price = 1.5 * (p.conditions.length : ℚ) + (p.conditions.map condPriceDelta).sum ∧
      r.TimeSeries = 0 + (p.conditions.map condTsDelta).sum ∧
      (p.conditions = [] → r.Price = 0 ∧ r.TimeSeries = 0) := by
  have hpr : processAlertPolicy p = some (p.conditions.foldl processCondition
      { TimeSeries := 0, Conditions := p.conditions.length, ProjectId := pid,
        Name := p.name, DisplayName := p.displayName, Error := "",
        Price := 1.5 * (p.conditions.length : ℚ) }) := by
    simp only [processAlertPolicy, hname]
  refine ⟨_, hpr, ?_, ?_, ?_⟩
  · rw [foldl_processCondition]
  · rw [foldl_processCondition]
  · intro hnil
    rw [foldl_processCondition]
    simp [hnil]

theorem C5_base_price_witness :
    ∃ r, processAlertPolicy
        ⟨"projects/p1/alertPolicies/9".data, "disp", []⟩ = some r ∧
      r.Price = 1.5 * (([] : List Condition).length : ℚ)
        + (([] : List Condition).map condPriceDelta).sum ∧
      r.TimeSeries = 0 + (([] : List Condition).map condTsDelta).sum ∧
      (([] : List Condition) = [] → r.Price = 0 ∧ r.TimeSeries = 0) :=
  C5_base_price ⟨"projects/p1/alertPolicies/9".data, "disp", []⟩ "p1".data (by decide)

/-- C2: For every policy whose conditions' query calls fail at least once, the
emitted PolicyResult's error field equals the message of the last failing
condition's error only; every condition evaluated successfully (before or
after a failure) still contributes its price and time-series count; a failure
never aborts the policy or empties the result. -/
theorem C2_last_error_wins (p : AlertPolicy) (pid : List Char)
    (hname : getProjectId p.name = some pid)
    (hfail : p.conditions.filterMap condError ≠ []) :
    ∃ r, processAlertPolicy p = some r ∧
      r.Error = (p.conditions.filterMap condError).getLast hfail ∧
      r.Price = 1.5 * (p.conditions.length : ℚ) + (p.conditions.map condPriceDelta).sum ∧
      r.TimeSeries = (p.conditions.map condTsDelta).sum := by
  have hpr : processAlertPolicy p = some (p.conditions.foldl processCondition
      { TimeSeries := 0, Conditions := p.conditions.length, ProjectId := pid,
        Name := p.name, DisplayName := p.displayName, Error := "",
        Price := 1.5 * (p.conditions.length : ℚ) }) := by
    simp only [processAlertPolicy, hname]
  refine ⟨_, hpr, ?_, ?_, ?_⟩
  · rw [foldl_processCondition]
    show lastErrorFrom "" p.conditions = _
    rw [lastErrorFrom_eq, List.getLast?_eq_getLast _ hfail]
    rfl
  · rw [foldl_processCondition]
  · rw [foldl_processCondition]
    simp

theorem C2_last_error_wins_witness :
    ∃ r, processAlertPolicy
        ⟨"projects/p1/alertPolicies/7".data, "d",
          [{ mql := some ⟨"fetch one", 3, none⟩, pql := none, threshold := none,
             absent := none, tsResult := ⟨0, none⟩ },
           { mql := some ⟨"fetch two", 0, some "deadline exceeded"⟩, pql := none,
             threshold := none, absent := none, tsResult := ⟨0, none⟩ }]⟩ = some r ∧
      r.Error = "deadline exceeded" ∧ r.Price = 3.09072 ∧ r.TimeSeries = 3 := by
  obtain ⟨r, hr, he, hp, ht⟩ := C2_last_error_wins
    ⟨"projects/p1/alertPolicies/7".data, "d",
      [{ mql := some ⟨"fetch one", 3, none⟩, pql := none, threshold := none,
         absent := none, tsResult := ⟨0, none⟩ },
       { mql := some ⟨"fetch two", 0, some "deadline exceeded"⟩, pql := none,
         threshold := none, absent := none, tsResult := ⟨0, none⟩ }]⟩
    "p1".data (by decide) (by decide)
  refine ⟨r, hr, ?_, ?_, ?_⟩
  · rw [he]
    rfl
  · rw [hp]
    norm_num [condPriceDelta]
  · rw [ht]
    rfl

/-- C10: processAlertPolicy requires every policy's full name to contain at
least two slash characters: getProjectId returns the substring strictly
between the first and second slash as the result's ProjectId, and for any
policy name with fewer than two slashes the string slicing panics (index out
of range, modelled as `none`), so well-formed names are a precondition of
evaluation. -/
theorem C10_name_precondition (p : AlertPolicy) (a b c : List Char)
    (ha : '/' ∉ a) (hb : '/' ∉ b) :
    (p.name.count '/' < 2 → processAlertPolicy p = none) ∧
    (p.name = a ++ '/' :: (b ++ '/' :: c) →
      ∃ r, processAlertPolicy p = some r ∧ r.ProjectId = b) := by
  constructor
  · intro h
    simp only [processAlertPolicy, getProjectId_eq_none p.name h]
  · intro h
    have hsome : getProjectId p.name = some b := by
      rw [h]
      exact getProjectId_eq_some a b c ha hb
    have hpr : processAlertPolicy p = some (p.conditions.foldl processCondition
        { TimeSeries := 0, Conditions := p.conditions.length, ProjectId := b,
          Name := p.name, DisplayName := p.displayName, Error := "",
          Price := 1.5 * (p.conditions.length : ℚ) }) := by
      simp only [processAlertPolicy, hsome]
    refine ⟨_, hpr, ?_⟩
    rw [foldl_processCondition]

theorem C10_name_precondition_witness :
    (("pro_jects".data : List Char).count '/' < 2 →
      processAlertPolicy ⟨"pro_jects".data, "d", []⟩ = none) ∧
    (("pro_jects".data : List Char) =
        "projects".data ++ '/' :: ("my-proj".data ++ '/' :: "alertPolicies/1".data) →
      ∃ r, processAlertPolicy ⟨"pro_jects".data, "d", []⟩ = some r ∧
        r.ProjectId = "my-proj".data) :=
  C10_name_precondition ⟨"pro_jects".data, "d", []⟩
    "projects".data "my-proj".data "alertPolicies/1".data (by decide) (by decide)

/-- C6: For every folder hierarchy, recursion flag and exclusion set, a folder
whose bare identifier (the part after the resource-kind prefix) is in the
exclusion set contributes zero projects to the output of listProjects,
including projects under all of its descendant subfolders at any depth, even
when those descendants are not themselves excluded; removing such a folder
from a parent's child list leaves the parent's output unchanged. -/
theorem C6_excluded_folder (recursive : Bool) (excl : List String) (name : String)
    (t : FTree) (hex : excl.contains (afterFirstSlash name) = true) :
    listProjects recursive excl name t = [] ∧
    ∀ (parent : String) (projs : List String) (l1 l2 : List (String × FTree)),
      listProjects recursive excl parent
          (FTree.node projs none (l1 ++ (name, t) :: l2) none) =
        listProjects recursive excl parent (FTree.node projs none (l1 ++ l2) none) := by
  have hmem : afterFirstSlash name ∈ excl := by simpa using hex
  have h1 : listProjects recursive excl name t = [] := by
    cases t
    simp [listProjects, hmem]
  refine ⟨h1, ?_⟩
  intro parent projs l1 l2
  by_cases hp : afterFirstSlash parent ∈ excl
  · simp [listProjects, hp]
  · cases recursive with
    | false => simp [listProjects, hp]
    | true =>
      have hL : walkFolders true excl (l1.length + (l2.length + 1))
          (l1 ++ (name, t) :: l2) =
          walkFolders true excl l1.length l1 ++ walkFolders true excl l2.length l2 := by
        have happ := walkFolders_append true excl l1 ((name, t) :: l2)
        simp only [List.length_cons] at happ
        rw [happ]
        congr 1
        simp only [walkFolders]
        rw [h1]
        simp
      have hR : walkFolders true excl (l1.length + l2.length) (l1 ++ l2) =
          walkFolders true excl l1.length l1 ++ walkFolders true excl l2.length l2 :=
        walkFolders_append true excl l1 l2
      simp [listProjects, hp, truncTake, folderFuel, hL, hR]

theorem C6_excluded_folder_witness :
    listProjects true ["ex"] "folders/ex" (FTree.node ["hidden"] none [] none) = [] ∧
    listProjects true ["ex"] "folders/root"
        (FTree.node ["a"] none
          [("folders/ok", FTree.node ["b"] none [] none),
           ("folders/ex", FTree.node ["hidden"] none [] none)] none) =
      listProjects true ["ex"] "folders/root"
        (FTree.node ["a"] none [("folders/ok", FTree.node ["b"] none [] none)] none) := by
  have h := C6_excluded_folder true ["ex"] "folders/ex"
    (FTree.node ["hidden"] none [] none) (by decide)
  exact ⟨h.1, h.2 "folders/root" ["a"] [("folders/ok", FTree.node ["b"] none [] none)] []⟩

/-- C7 counterexample: a provider error while fetching the first explicitly
named policy at startup makes the run abort (the Go code calls `log.Fatal`):
the second named policy is dropped and no result list is produced, so an
error during one item's processing is not confined to that item. -/
theorem C7_counterexample :
    fetchNamedPolicies
        [Except.error "rpc error: policy not found",
         Except.ok ⟨"projects/p/alertPolicies/2".data, "d", []⟩] =
      Except.error "rpc error: policy not found" := rfl

/-- C7 amended: within the worker-pool stages — permission check, policy
enumeration, condition evaluation — a provider error terminates only the item
that produced it: each stage processes its items independently, so the
outputs for the surrounding items are unchanged whatever happens to the
middle item (dropped by the permission gate, truncated enumeration, an error
recorded in its own result), and an enumeration error truncates only that
one project's listing; but a provider error while fetching an explicitly
named policy at startup aborts the entire run with that error. -/
theorem C7_item_isolation :
    (∀ (tp : Bool) (l1 l2 : List (String × Except String (List String)))
        (x : String × Except String (List String)),
      permissionStage tp (l1 ++ x :: l2) =
        permissionStage tp l1 ++ (verifyProjectPermissions x.1 tp x.2).toList
          ++ permissionStage tp l2) ∧
    (∀ (inc : Bool) (l1 l2 : List (List PolicyEntry × Option Nat))
        (x : List PolicyEntry × Option Nat),
      enumerationStage inc (l1 ++ x :: l2) =
        enumerationStage inc l1 ++ listAlertPolicies inc x.1 x.2
          :: enumerationStage inc l2) ∧
    (∀ (inc : Bool) (entries : List PolicyEntry) (k : Nat),
      listAlertPolicies inc entries (some k) =
        listAlertPolicies inc (entries.take k) none) ∧
    (∀ (l1 l2 : List AlertPolicy) (p : AlertPolicy),
      evalStage (l1 ++ p :: l2) = evalStage l1 ++ processAlertPolicy p :: evalStage l2) ∧
    (∀ (e : String) (rest : List (Except String AlertPolicy)),
      fetchNamedPolicies (Except.error e :: rest) = Except.error e) := by
  refine ⟨?_, ?_, fun inc entries k => rfl, ?_, fun e rest => rfl⟩
  · intro tp l1 l2 x
    cases h : verifyProjectPermissions x.1 tp x.2 <;>
      simp [permissionStage, List.filterMap_cons, h]
  · intro inc l1 l2 x
    simp [enumerationStage]
  · intro l1 l2 p
    simp [evalStage]

/-- C8 counterexample: with the projects listing at the parent failing
immediately (provider error before any project is yielded) but the folder
listing intact, the parent still contributes its child folder's project, so a
listing failure does not make the parent contribute no further children. -/
theorem C8_counterexample :
    listProjects true [] "folders/root"
        (FTree.node ["p1", "p2"] (some 0)
          [("folders/child", FTree.node ["q"] none [] none)] none) = ["q"] := by
  simp [listProjects, walkFolders, truncTake, folderFuel]

/-- C8 amended: a provider error in the projects listing at a parent
truncates only that listing — the projects yielded before the error are kept
and the folder listing still runs, contributing exactly what it would
contribute for the same node with no projects and no error — and sibling
folders are processed independently, each contributing its own projects. -/
theorem C8_error_isolation (excl : List String) (parent : String)
    (projs : List String) (k : Nat) (folders : List (String × FTree))
    (ferr : Option Nat) (hp : excl.contains (afterFirstSlash parent) = false) :
    listProjects true excl parent (FTree.node projs (some k) folders ferr) =
      projs.take k ++ listProjects true excl parent (FTree.node [] none folders ferr) ∧
    ∀ (l1 l2 : List (String × FTree)),
      walkFolders true excl (l1.length + l2.length) (l1 ++ l2) =
        walkFolders true excl l1.length l1 ++ walkFolders true excl l2.length l2 := by
  have hpmem : afterFirstSlash parent ∉ excl := by simpa using hp
  refine ⟨?_, walkFolders_append true excl⟩
  simp [listProjects, hpmem, truncTake, folderFuel]

theorem C8_error_isolation_witness :
    (listProjects true [] "folders/root"
        (FTree.node ["p1", "p2"] (some 1)
          [("folders/child", FTree.node ["q"] none [] none)] none) =
      ["p1"].take 1 ++ listProjects true [] "folders/root"
        (FTree.node [] none [("folders/child", FTree.node ["q"] none [] none)] none)) ∧
    (listProjects true [] "folders/root"
        (FTree.node ["p1", "p2"] (some 1)
          [("folders/child", FTree.node ["q"] none [] none)] none) = ["p1", "q"]) := by
  have h := C8_error_isolation [] "folders/root" ["p1", "p2"] 1
    [("folders/child", FTree.node ["q"] none [] none)] none (by decide)
  refine ⟨?_, ?_⟩
  · rw [h.1]
    rfl
  · rw [h.1]
    simp [listProjects, walkFolders, truncTake, folderFuel]
